import Mathlib

/-!
Verification of the task-execution engine of the `build` repository.

The definitions below are a shallow embedding of the TypeScript sources:
  * `Engine.*`          — the base engine in `src/engine.ts` (class `Engine`)
  * `RunTs.*`           — the `AsyncEngine` subclass defined in `src/commands/run.ts`
  * `PlanTs.*`          — the `AsyncEngine` subclass defined in `src/commands/plan.ts`
  * `Estimator.*`       — `src/agents/estimator.ts`
  * `Timeline.*`        — the timeline pre-execution check in `src/commands/run.ts`

External collaborators (the labor-marketplace adapter and the interactive
prompt surface) are modelled as oracles carried in a `World` record: a list of
human decisions (answers to inquirer confirm prompts, consumed in order) and a
list of side-effect outcomes (whether each non-dry adapter interaction
succeeds or rejects, consumed in order).  The `World` also carries two
instrumentation traces used by the theorems: the sequence of capability calls
issued to the adapter and the sequence of approval prompts shown to the human.

JavaScript `Set` objects are modelled as duplicate-free lists in insertion
order (`addId`); `Date.now()` is modelled by a single `now : Int` parameter,
which is enough because no claim depends on the progression of wall-clock
time within a run.  Unbounded `while` loops are modelled with explicit fuel;
theorems either prove the fuel sufficient or expose fuel exhaustion as the
observable non-termination of the source loop.
-/

namespace Build

/-- Task lifecycle status, from `enums.d.ts` (`TaskStatus`). -/
inductive TaskStatus where
  | pending
  | in_progress
  | completed
  | failed
  | blocked
  | cancelled
deriving DecidableEq, Repr

/-- Monetary amount in cents plus a currency code (`Money`). -/
structure Money where
  amount : Int
  currency : String
deriving DecidableEq, Repr

/-- A task of a `TaskPlan`.  Fields that no claim mentions and that only the
cosmetic console output reads (materials, tools, instructions, checkpoints,
notes, evidence, startTime, endTime, actualHours) are omitted. -/
structure Task where
  id : String
  name : String
  description : String
  status : TaskStatus
  priority : String
  estimatedHours : Nat
  estimatedCost : Money
  skills : List String
  dependsOn : List String
  progress : Nat
deriving DecidableEq, Repr

/-- A dependency edge record of `TaskPlan.dependencies` (stored metadata; the
engines schedule from `Task.dependsOn` only). -/
structure Dependency where
  source : String
  target : String
  dtype : String
deriving DecidableEq, Repr

/-- The task plan (`TaskPlan`). -/
structure TaskPlan where
  tasks : List Task
  dependencies : List Dependency
  criticalPath : List String
  estimatedDuration : Nat
  estimatedCost : Money
deriving DecidableEq, Repr

/-- One entry of `project.state.executionLog` as pushed by
`plan.ts` (`id`, `description`, `worker` and `duration` are derived
cosmetic fields and are omitted). -/
structure LogEntry where
  timestamp : Int
  taskId : String
  action : String
deriving DecidableEq, Repr

/-- A named skill requirement of the project spec, used by the estimator. -/
structure Requirement where
  name : String
  level : Nat
deriving DecidableEq, Repr

/-- Per-tier labor pricing (`SkillTierPricing`), one `Money` per tier. -/
structure SkillTierPricing where
  basic : Money
  intermediate : Money
  advanced : Money
  expert : Money
deriving DecidableEq, Repr

/-- The mutable run state stored on the project (`project.state`). -/
structure ProjectState where
  currentPhase : String
  completedTasks : List String
  blockedTasks : List String
  executionLog : List LogEntry
  skillTiers : SkillTierPricing
deriving DecidableEq, Repr

/-- Project metadata (`project.metadata`); only `lastModified` is ever
written by the engines. -/
structure Metadata where
  lastModified : Int
deriving DecidableEq, Repr

/-- The policy record (`project.policy`). -/
structure Policy where
  humanApprovalPoints : List String
deriving DecidableEq, Repr

/-- Project budget (`project.project.budget`). -/
structure Budget where
  total : Money
  currency : String
deriving DecidableEq, Repr

/-- Project timeline (`project.project.timeline`). -/
structure TimelineInfo where
  startDate : Int
  targetEndDate : Int
deriving DecidableEq, Repr

/-- The descriptive sub-record `project.project`. -/
structure ProjectInfo where
  name : String
  budget : Budget
  timeline : TimelineInfo
deriving DecidableEq, Repr

/-- The whole persisted project record. -/
structure Project where
  metadata : Metadata
  info : ProjectInfo
  spec : List Requirement
  policy : Policy
  state : ProjectState
  plan : TaskPlan
deriving DecidableEq, Repr

/-- Execution options common to the engines (`approveAll`, `dryRun`).  The
modelled runs use batch dispatch with `interactive = false` and
`modify = false`; the interactive-selection and plan-modification prompts of
`plan.ts` are not modelled. -/
structure ExecOptions where
  approveAll : Bool
  dryRun : Bool
deriving DecidableEq, Repr

/-- Insertion into a JavaScript `Set` rendered on lists: append the element
unless it is already present.  Keeps the list duplicate-free, so its length
is the `size` of the set. -/
def addId (s : List String) (id : String) : List String :=
  if s.contains id then s else s ++ [id]

namespace Engine

/-- Function `Engine.getReadyTasks` of `src/engine.ts`: the tasks whose id is not yet
executed and whose `dependsOn` ids are all executed. -/
def getReadyTasks (taskPlan : TaskPlan) (executedTasks : List String) : List Task :=
  taskPlan.tasks.filter (fun task =>
    !executedTasks.contains task.id &&
      task.dependsOn.all (fun dep => executedTasks.contains dep))

/-- Result of one `Engine.execute` call.  `fuelOut` marks that the modelled
fuel ran out before the `while` loop of the source finished. -/
inductive ExecResult where
  | approvalHalt
  | completed (executedTasks : List String)
  | haltedCycle (executedTasks : List String)
  | fuelOut (executedTasks : List String)
deriving DecidableEq, Repr

/-- The `while (executedTasks.size < taskPlan.tasks.length)` loop of
`Engine.execute`: recompute the ready set, report a circular dependency when
it is empty, otherwise execute every ready task and add its id to the
executed set. -/
def executeLoop (taskPlan : TaskPlan) : Nat → List String → ExecResult
  | 0, executedTasks => .fuelOut executedTasks
  | fuel + 1, executedTasks =>
    if executedTasks.length < taskPlan.tasks.length then
      let ready := getReadyTasks taskPlan executedTasks
      if ready.isEmpty then
        .haltedCycle executedTasks
      else
        executeLoop taskPlan fuel (ready.foldl (fun ex t => addId ex t.id) executedTasks)
    else
      .completed executedTasks

/-- Function `Engine.execute` of `src/engine.ts`: halt before the loop when the
`labor_hire` approval point is configured and `approveAll` is off, then run
the dependency-ordered loop.  One fuel unit per loop iteration;
`tasks.length + 1` units are proved sufficient below. -/
def execute (taskPlan : TaskPlan) (project : Project) (options : ExecOptions) : ExecResult :=
  if project.policy.humanApprovalPoints.contains "labor_hire" && !options.approveAll then
    .approvalHalt
  else
    executeLoop taskPlan (taskPlan.tasks.length + 1) []

end Engine

theorem addId_of_mem {s : List String} {i : String} (hi : i ∈ s) : addId s i = s := by
  simp [addId, hi]

theorem addId_of_not_mem {s : List String} {i : String} (hi : i ∉ s) :
    addId s i = s ++ [i] := by
  simp [addId, hi]

theorem mem_addId {s : List String} {i a : String} :
    a ∈ addId s i ↔ a ∈ s ∨ a = i := by
  by_cases hi : i ∈ s
  · rw [addId_of_mem hi]
    exact ⟨Or.inl, fun h => h.elim id (fun h2 => h2 ▸ hi)⟩
  · rw [addId_of_not_mem hi]
    simp

theorem nodup_addId {s : List String} {i : String} (h : s.Nodup) : (addId s i).Nodup := by
  by_cases hi : i ∈ s
  · rw [addId_of_mem hi]; exact h
  · rw [addId_of_not_mem hi]
    simp [List.nodup_append, h, hi]

theorem length_addId_le (s : List String) (i : String) : s.length ≤ (addId s i).length := by
  by_cases hi : i ∈ s
  · rw [addId_of_mem hi]
  · rw [addId_of_not_mem hi]; simp

theorem length_addId_lt {s : List String} {i : String} (h : i ∉ s) :
    s.length < (addId s i).length := by
  rw [addId_of_not_mem h]; simp

theorem mem_foldl_addId (ts : List Task) (ex : List String) (a : String) :
    a ∈ ts.foldl (fun e t => addId e t.id) ex ↔ a ∈ ex ∨ ∃ t ∈ ts, t.id = a := by
  induction ts generalizing ex with
  | nil => simp
  | cons t rest ih =>
    simp only [List.foldl_cons, ih, mem_addId, List.exists_mem_cons_iff]
    constructor
    · rintro ((ha | ha) | ⟨u, hu, rfl⟩)
      · exact Or.inl ha
      · exact Or.inr (Or.inl ha.symm)
      · exact Or.inr (Or.inr ⟨u, hu, rfl⟩)
    · rintro (ha | ha | ⟨u, hu, rfl⟩)
      · exact Or.inl (Or.inl ha)
      · exact Or.inl (Or.inr ha.symm)
      · exact Or.inr ⟨u, hu, rfl⟩

theorem nodup_foldl_addId (ts : List Task) {ex : List String} (h : ex.Nodup) :
    (ts.foldl (fun e t => addId e t.id) ex).Nodup := by
  induction ts generalizing ex with
  | nil => simpa
  | cons t rest ih => exact ih (nodup_addId h)

theorem length_le_foldl_addId (ts : List Task) (ex : List String) :
    ex.length ≤ (ts.foldl (fun e t => addId e t.id) ex).length := by
  induction ts generalizing ex with
  | nil => simp
  | cons t rest ih =>
    exact le_trans (length_addId_le ex t.id) (ih (addId ex t.id))

theorem length_lt_foldl_addId {ts : List Task} {ex : List String}
    (h : ∃ t ∈ ts, t.id ∉ ex) :
    ex.length < (ts.foldl (fun e t => addId e t.id) ex).length := by
  induction ts generalizing ex with
  | nil => simp at h
  | cons t rest ih =>
    simp only [List.foldl_cons]
    by_cases hid : t.id ∈ ex
    · rw [addId_of_mem hid]
      rcases h with ⟨u, hu, hnu⟩
      rcases List.mem_cons.mp hu with rfl | hu
      · exact absurd hid hnu
      · exact ih ⟨u, hu, hnu⟩
    · exact lt_of_lt_of_le (length_addId_lt hid) (length_le_foldl_addId rest _)

/-- Membership characterization of `Engine.getReadyTasks`, shared by the
theorems below. -/
theorem getReadyTasks_mem (taskPlan : TaskPlan) (ex : List String) (t : Task) :
    t ∈ Engine.getReadyTasks taskPlan ex ↔
      t ∈ taskPlan.tasks ∧ t.id ∉ ex ∧ ∀ d ∈ t.dependsOn, d ∈ ex := by
  simp [Engine.getReadyTasks, List.mem_filter, List.all_eq_true]

/-- Invariant of the executed-id set maintained by `Engine.executeLoop`:
duplicate-free, and every member is the id of some task of the plan. -/
def ExecInv (taskPlan : TaskPlan) (ex : List String) : Prop :=
  ex.Nodup ∧ ∀ i ∈ ex, i ∈ taskPlan.tasks.map Task.id

theorem ExecInv.length_le {taskPlan : TaskPlan} {ex : List String}
    (h : ExecInv taskPlan ex) : ex.length ≤ taskPlan.tasks.length := by
  have hsub : List.Subperm ex (taskPlan.tasks.map Task.id) :=
    List.subperm_of_subset h.1 h.2
  simpa using hsub.length_le

theorem ExecInv.step {taskPlan : TaskPlan} {ex : List String}
    (h : ExecInv taskPlan ex) (ts : List Task) (hts : ∀ t ∈ ts, t ∈ taskPlan.tasks) :
    ExecInv taskPlan (ts.foldl (fun e t => addId e t.id) ex) := by
  refine ⟨nodup_foldl_addId ts h.1, ?_⟩
  intro i hi
  rcases (mem_foldl_addId ts ex i).mp hi with hi | ⟨t, ht, rfl⟩
  · exact h.2 i hi
  · exact List.mem_map.mpr ⟨t, hts t ht, rfl⟩

theorem executeLoop_no_fuelOut (taskPlan : TaskPlan) :
    ∀ fuel (ex : List String), ExecInv taskPlan ex →
      taskPlan.tasks.length + 1 - ex.length ≤ fuel →
      ∀ ex2, Engine.executeLoop taskPlan fuel ex ≠ .fuelOut ex2 := by
  intro fuel
  induction fuel with
  | zero =>
    intro ex hinv hfuel ex2
    have := hinv.length_le
    omega
  | succ n ih =>
    intro ex hinv hfuel ex2
    rw [Engine.executeLoop]
    by_cases hlt : ex.length < taskPlan.tasks.length
    · simp only [hlt, if_true]
      by_cases hrdy : (Engine.getReadyTasks taskPlan ex).isEmpty
      · simp [hrdy]
      · simp only [hrdy, Bool.false_eq_true, if_false]
        have hne : Engine.getReadyTasks taskPlan ex ≠ [] := by
          simpa [List.isEmpty_iff] using hrdy
        obtain ⟨t, ht⟩ := List.exists_mem_of_ne_nil _ hne
        have htr := (getReadyTasks_mem taskPlan ex t).mp ht
        have hgrow : ex.length <
            ((Engine.getReadyTasks taskPlan ex).foldl (fun e t => addId e t.id) ex).length :=
          length_lt_foldl_addId ⟨t, ht, htr.2.1⟩
        refine ih _ (hinv.step _ (fun u hu => ((getReadyTasks_mem taskPlan ex u).mp hu).1)) ?_ ex2
        omega
    · simp [hlt]

/-- A dependency-closed family of task ids: nonempty, and every member names
a task of the plan that depends on some member of the family.  The id set of
any cycle of the `dependsOn` relation is such a family, and conversely every
such family contains a cycle, so this is the loop-invariant form of "the
dependency edges contain a cycle". -/
def CycleClosed (taskPlan : TaskPlan) (cyc : List String) : Prop :=
  cyc ≠ [] ∧ ∀ c ∈ cyc, ∃ t ∈ taskPlan.tasks, t.id = c ∧ ∃ d ∈ t.dependsOn, d ∈ cyc

instance (taskPlan : TaskPlan) (cyc : List String) : Decidable (CycleClosed taskPlan cyc) := by
  unfold CycleClosed
  infer_instance

theorem executeLoop_cycle (taskPlan : TaskPlan) (cyc : List String)
    (hnd : (taskPlan.tasks.map Task.id).Nodup) (hcyc : CycleClosed taskPlan cyc) :
    ∀ fuel (ex : List String), ExecInv taskPlan ex → (∀ c ∈ cyc, c ∉ ex) →
      taskPlan.tasks.length + 1 - ex.length ≤ fuel →
      ∃ ex2, Engine.executeLoop taskPlan fuel ex = .haltedCycle ex2 ∧ ∀ c ∈ cyc, c ∉ ex2 := by
  intro fuel
  induction fuel with
  | zero =>
    intro ex hinv hdis hfuel
    have := hinv.length_le
    omega
  | succ n ih =>
    intro ex hinv hdis hfuel
    rw [Engine.executeLoop]
    by_cases hlt : ex.length < taskPlan.tasks.length
    · simp only [hlt, if_true]
      by_cases hrdy : (Engine.getReadyTasks taskPlan ex).isEmpty
      · exact ⟨ex, by simp [hrdy], hdis⟩
      · simp only [hrdy, Bool.false_eq_true, if_false]
        have hready_not_cyc : ∀ t ∈ Engine.getReadyTasks taskPlan ex, t.id ∉ cyc := by
          intro t ht htc
          have htr := (getReadyTasks_mem taskPlan ex t).mp ht
          obtain ⟨t2, ht2, hid2, d, hd, hdc⟩ := hcyc.2 t.id htc
          have : t2 = t :=
            List.inj_on_of_nodup_map hnd ht2 htr.1 (by rw [hid2])
          subst this
          exact hdis d hdc (htr.2.2 d hd)
        have hne : Engine.getReadyTasks taskPlan ex ≠ [] := by
          simpa [List.isEmpty_iff] using hrdy
        obtain ⟨t, ht⟩ := List.exists_mem_of_ne_nil _ hne
        have htr := (getReadyTasks_mem taskPlan ex t).mp ht
        have hgrow : ex.length <
            ((Engine.getReadyTasks taskPlan ex).foldl (fun e t => addId e t.id) ex).length :=
          length_lt_foldl_addId ⟨t, ht, htr.2.1⟩
        have hdis2 : ∀ c ∈ cyc,
            c ∉ (Engine.getReadyTasks taskPlan ex).foldl (fun e t => addId e t.id) ex := by
          intro c hc hmem
          rcases (mem_foldl_addId _ ex c).mp hmem with hmem | ⟨u, hu, rfl⟩
          · exact hdis c hc hmem
          · exact hready_not_cyc u hu hc
        refine ih _ (hinv.step _ (fun u hu => ((getReadyTasks_mem taskPlan ex u).mp hu).1))
          hdis2 ?_
        omega
    · exfalso
      obtain ⟨c, hc⟩ := List.exists_mem_of_ne_nil _ hcyc.1
      obtain ⟨t, ht, hid, -⟩ := hcyc.2 c hc
      have hsub : List.Subperm ex (taskPlan.tasks.map Task.id) :=
        List.subperm_of_subset hinv.1 hinv.2
      have hperm : ex.Perm (taskPlan.tasks.map Task.id) :=
        hsub.perm_of_length_le (by simpa using le_of_not_lt hlt)
      have hcid : c ∈ taskPlan.tasks.map Task.id := List.mem_map.mpr ⟨t, ht, hid⟩
      exact hdis c hc (hperm.mem_iff.mpr hcid)

/-- Readiness of a task with respect to a set of executed ids, as a
proposition: not yet executed, and every dependency executed. -/
def readyProp (executedIds : List String) (t : Task) : Prop :=
  t.id ∉ executedIds ∧ ∀ d ∈ t.dependsOn, d ∈ executedIds

/-- C2: `getReadyTasks` returns exactly the tasks whose id is outside the
executed set and whose whole `dependsOn` set is inside it, as a subsequence
of the original plan order; in particular it never returns a task with an
unexecuted dependency. -/
theorem c2_getReadyTasks_correct (taskPlan : TaskPlan) (executedIds : List String) :
    List.Sublist (Engine.getReadyTasks taskPlan executedIds) taskPlan.tasks ∧
    (∀ t : Task, t ∈ Engine.getReadyTasks taskPlan executedIds ↔
      t ∈ taskPlan.tasks ∧ readyProp executedIds t) := by
  constructor
  · exact List.filter_sublist taskPlan.tasks
  · intro t
    simp [Engine.getReadyTasks, readyProp, List.mem_filter, List.all_eq_true]

/-- Helper building a pending medium-priority general-skill task. -/
def mkTask (id : String) (deps : List String) : Task where
  id := id
  name := id
  description := ""
  status := .pending
  priority := "medium"
  estimatedHours := 1
  estimatedCost := { amount := 1000, currency := "USD" }
  skills := ["general"]
  dependsOn := deps
  progress := 0

/-- Helper building a plan around a task list. -/
def mkPlan (tasks : List Task) : TaskPlan where
  tasks := tasks
  dependencies := []
  criticalPath := []
  estimatedDuration := 8
  estimatedCost := { amount := 3000, currency := "USD" }

/-- The default skill-tier pricing used across the repository fixtures. -/
def defaultTiers : SkillTierPricing where
  basic := { amount := 2000, currency := "USD" }
  intermediate := { amount := 3000, currency := "USD" }
  advanced := { amount := 4500, currency := "USD" }
  expert := { amount := 6000, currency := "USD" }

/-- Helper building a project around a plan, with no approval points. -/
def mkProject (plan : TaskPlan) : Project where
  metadata := { lastModified := 0 }
  info :=
    { name := "proj"
      budget := { total := { amount := 100000, currency := "USD" }, currency := "USD" }
      timeline := { startDate := 0, targetEndDate := 864000000 } }
  spec := []
  policy := { humanApprovalPoints := [] }
  state :=
    { currentPhase := "PLAN"
      completedTasks := []
      blockedTasks := []
      executionLog := []
      skillTiers := defaultTiers }
  plan := plan

/-- C10: `Engine.execute` terminates for every finite task plan: each loop
iteration either exits or strictly enlarges the executed set, which is
bounded by the number of tasks, so `tasks.length + 1` fuel units are never
exhausted. -/
theorem c10_execute_terminates (taskPlan : TaskPlan) (project : Project)
    (options : ExecOptions) (ex2 : List String) :
    Engine.execute taskPlan project options ≠ Engine.ExecResult.fuelOut ex2 := by
  unfold Engine.execute
  split
  · intro h
    cases h
  · exact executeLoop_no_fuelOut taskPlan _ [] ⟨List.nodup_nil, by simp⟩ (by omega) ex2

/-- C1 (amended): when the `dependsOn` edges of a plan with unique task ids
contain a cycle — given as a dependency-closed id family — and the labor-hire
pre-approval guard does not halt the run first, `Engine.execute` always ends
with the in-loop circular-dependency report, and no task of the cycle is ever
executed; tasks independent of the cycle may execute before the halt. -/
theorem c1_cycle_halts_execution (taskPlan : TaskPlan) (project : Project)
    (options : ExecOptions) (cyc : List String)
    (hnd : (taskPlan.tasks.map Task.id).Nodup)
    (hcyc : CycleClosed taskPlan cyc)
    (hguard : (project.policy.humanApprovalPoints.contains "labor_hire"
      && !options.approveAll) = false) :
    ∃ ex, Engine.execute taskPlan project options = .haltedCycle ex ∧ ∀ c ∈ cyc, c ∉ ex := by
  unfold Engine.execute
  rw [hguard]
  simp only [Bool.false_eq_true, if_false]
  exact executeLoop_cycle taskPlan cyc hnd hcyc _ [] ⟨List.nodup_nil, by simp⟩
    (by simp) (by omega)

/-- Plan whose dependency edges contain the two-task cycle
`task_b ↔ task_c` next to the independent task `task_a`. -/
def c1Plan : TaskPlan :=
  mkPlan [mkTask "task_a" [], mkTask "task_b" ["task_c"], mkTask "task_c" ["task_b"]]

/-- Project wrapping `c1Plan`. -/
def c1Project : Project := mkProject c1Plan

/-- C1 counterexample to the claim as stated: on `c1Plan` the engine executes
`task_a` before reporting the cycle, so the executed set at the halt is not
empty — there is no pre-validation that fails before execution begins. -/
theorem c1_counterexample :
    Engine.execute c1Plan c1Project { approveAll := true, dryRun := true } =
      Engine.ExecResult.haltedCycle ["task_a"] ∧ (["task_a"] : List String) ≠ [] := by
  decide

/-- Plan that is a pure two-task dependency cycle. -/
def c1PurePlan : TaskPlan :=
  mkPlan [mkTask "task_x" ["task_y"], mkTask "task_y" ["task_x"]]

/-- Project wrapping `c1PurePlan`. -/
def c1PureProject : Project := mkProject c1PurePlan

/-- Options used by the C1 witness. -/
def c1PureOptions : ExecOptions := { approveAll := true, dryRun := false }

/-- Witness instantiating `c1_cycle_halts_execution` on the pure two-task
cycle. -/
theorem c1_cycle_halts_execution_witness :
    ((c1PurePlan.tasks.map Task.id).Nodup ∧
      CycleClosed c1PurePlan ["task_x", "task_y"] ∧
      (c1PureProject.policy.humanApprovalPoints.contains "labor_hire"
        && !c1PureOptions.approveAll) = false) ∧
    ∃ ex, Engine.execute c1PurePlan c1PureProject c1PureOptions = .haltedCycle ex ∧
      ∀ c ∈ ["task_x", "task_y"], c ∉ ex :=
  ⟨⟨by decide, by decide, by decide⟩,
    c1_cycle_halts_execution c1PurePlan c1PureProject c1PureOptions ["task_x", "task_y"]
      (by decide) (by decide) (by decide)⟩

/-- Oracles standing for the external collaborators, plus instrumentation:
`decisions` answers the inquirer confirm prompts in order, `performs` decides
whether each non-dry adapter interaction succeeds or rejects, `calls` records
every capability call issued to the labor adapter, `prompts` records every
approval prompt shown to the human (by task id or approval-point name). -/
structure World where
  decisions : List Bool
  performs : List Bool
  calls : List String
  prompts : List String
deriving DecidableEq, Repr

/-- Consume one human decision.  An exhausted oracle answers `true`, the
default offered by the approval prompts. -/
def takeDecision (w : World) : Bool × World :=
  match w.decisions with
  | [] => (true, w)
  | d :: rest => (d, { w with decisions := rest })

/-- Consume one side-effect outcome for a non-dry adapter interaction;
`false` models the adapter promise rejecting.  An exhausted oracle reports
success, which is what the in-repo mock adapter always does. -/
def takePerform (w : World) : Bool × World :=
  match w.performs with
  | [] => (true, w)
  | b :: rest => (b, { w with performs := rest })

/-- Function `Engine.executeTask` of `src/engine.ts`, reduced to its side-effect
behaviour: in dry-run it returns immediately without touching any capability;
for a labor task (skills include `assembly` or `basic_tools`) it posts the
job, lists bids, accepts the cheapest and marks it done through the labor
adapter (the mock adapter always returns a nonempty bid list), succeeding or
rejecting per the perform oracle; preparation tasks call no capability and
cannot fail. -/
def Engine.executeTask (task : Task) (options : ExecOptions) (w : World) : Bool × World :=
  if options.dryRun then
    (true, w)
  else if task.skills.contains "assembly" || task.skills.contains "basic_tools" then
    takePerform
      { w with calls := w.calls ++ ["postJob", "listBids", "acceptBid", "markDone"] }
  else
    (true, w)

/-- Overwrite the status of the task with the given id (the source mutates
the task object in place; task ids are unique per the data model). -/
def setTaskStatus (project : Project) (id : String) (status : TaskStatus) : Project :=
  let newTasks := project.plan.tasks.map (fun t =>
    if t.id == id then { t with status := status } else t)
  { project with plan := { project.plan with tasks := newTasks } }

namespace RunTs

/-- One entry of the run-local `executionState.executionLog` of run.ts
(task-completion entries carry a `taskId`, approval entries an
`approvalPoint` and `approved` flag). -/
structure RLogEntry where
  timestamp : Int
  action : String
  taskId : Option String
  approvalPoint : Option String
  approved : Option Bool
deriving DecidableEq, Repr

/-- The per-run `executionState` object of run.ts `executeAsync`.  Note that
run.ts logs to this object and never copies the log or the blocked set back
onto `project.state`. -/
structure ExecutionState where
  completedTasks : List String
  blockedTasks : List String
  pendingApprovals : List String
  executionLog : List RLogEntry
deriving DecidableEq, Repr

/-- Function `requiresApproval` of run.ts `AsyncEngine`: critical priority, cost above
5000 cents, or a specialized skill. -/
def requiresApproval (task : Task) (project : Project) : Bool :=
  task.priority == "critical" || task.estimatedCost.amount > 5000 ||
    task.skills.contains "specialized"

/-- Function `shouldTriggerApproval` of run.ts `AsyncEngine`. -/
def shouldTriggerApproval (approvalPoint : String) (project : Project)
    (st : ExecutionState) : Bool :=
  if approvalPoint == "plan" then st.completedTasks.length == 0
  else if approvalPoint == "labor_hire" then
    project.plan.tasks.any (fun t =>
      t.skills.contains "labor" && !st.completedTasks.contains t.id)
  else false

/-- The try/catch body of `executeTaskWithAsyncFlow`: run
`Engine.executeTask`; on success add the id to `completedTasks`, set the
status to `completed` and push a `completed` log entry; on failure set the
status to `failed` and add the id to `blockedTasks` (no log entry). -/
def dispatchTask (task : Task) (project : Project) (st : ExecutionState)
    (options : ExecOptions) (w : World) (now : Int) :
    Project × ExecutionState × World :=
  let r := Engine.executeTask task options w
  if r.1 then
    (setTaskStatus project task.id .completed,
      { st with
        completedTasks := addId st.completedTasks task.id
        executionLog := st.executionLog ++
          [{ timestamp := now, action := "completed", taskId := some task.id,
             approvalPoint := none, approved := none }] },
      r.2)
  else
    (setTaskStatus project task.id .failed,
      { st with blockedTasks := addId st.blockedTasks task.id }, r.2)

/-- Function `executeTaskWithAsyncFlow` of run.ts: prompt for approval when required
and not in approve-all mode — a rejection only adds the id to `blockedTasks`
and returns, leaving `task.status` untouched — otherwise dispatch the
task. -/
def executeTaskWithAsyncFlow (task : Task) (project : Project) (st : ExecutionState)
    (options : ExecOptions) (w : World) (now : Int) :
    Project × ExecutionState × World :=
  if requiresApproval task project && !options.approveAll then
    let w1 := { w with prompts := w.prompts ++ [task.id] }
    let d := takeDecision w1
    if !d.1 then
      (project, { st with blockedTasks := addId st.blockedTasks task.id }, d.2)
    else
      dispatchTask task project st options d.2 now
  else
    dispatchTask task project st options w now

/-- The loop body of `checkApprovalPoints` of run.ts: walk the policy
approval points, skipping points already handled; when a point triggers,
prompt unless in approve-all mode — a rejection returns at once (remaining
points unprocessed), an approval records the point and appends an `approval`
log entry. -/
def checkApprovalPointsGo (project : Project) (options : ExecOptions) (now : Int) :
    List String → ExecutionState → World → ExecutionState × World
  | [], st, w => (st, w)
  | point :: rest, st, w =>
    if st.pendingApprovals.contains point then
      checkApprovalPointsGo project options now rest st w
    else if shouldTriggerApproval point project st then
      if !options.approveAll then
        let w1 := { w with prompts := w.prompts ++ [point] }
        let d := takeDecision w1
        if !d.1 then (st, d.2)
        else
          checkApprovalPointsGo project options now rest
            { st with
              pendingApprovals := addId st.pendingApprovals point
              executionLog := st.executionLog ++
                [{ timestamp := now, action := "approval", taskId := none,
                   approvalPoint := some point, approved := some true }] } d.2
      else
        checkApprovalPointsGo project options now rest
          { st with
            pendingApprovals := addId st.pendingApprovals point
            executionLog := st.executionLog ++
              [{ timestamp := now, action := "approval", taskId := none,
                 approvalPoint := some point, approved := some true }] } w
    else
      checkApprovalPointsGo project options now rest st w

/-- Function `checkApprovalPoints` of run.ts `AsyncEngine`. -/
def checkApprovalPoints (project : Project) (st : ExecutionState) (options : ExecOptions)
    (w : World) (now : Int) : ExecutionState × World :=
  checkApprovalPointsGo project options now project.policy.humanApprovalPoints st w

/-- Dispatch every ready task of the current round in order. -/
def runRound (options : ExecOptions) (now : Int) :
    List Task → Project → ExecutionState → World → Project × ExecutionState × World
  | [], project, st, w => (project, st, w)
  | task :: rest, project, st, w =>
    let r := executeTaskWithAsyncFlow task project st options w now
    runRound options now rest r.1 r.2.1 r.2.2

/-- Result of a run of `executeAsync` of run.ts.  `finished = false` records
that the fuel ran out: the source `while` loop had not exited after the
modelled number of rounds. -/
structure RunOutcome where
  project : Project
  state : ExecutionState
  world : World
  finished : Bool
deriving DecidableEq, Repr

/-- The post-loop tail of run.ts `executeAsync`: the phase is set to
`COMPLETED` unconditionally (there is no `FAILED` assignment anywhere in the
function), the completed set is copied onto the project, and `lastModified`
is stamped. -/
def finishRun (project : Project) (st : ExecutionState) (w : World) (now : Int) :
    RunOutcome where
  project := { project with
    state := { project.state with
      currentPhase := "COMPLETED"
      completedTasks := st.completedTasks }
    metadata := { project.metadata with lastModified := now } }
  state := st
  world := w
  finished := true

/-- The `while (completedTasks.size < tasks.length)` loop of run.ts
`executeAsync`: recompute the ready set from `completedTasks` only, break to
the epilogue when it is empty, otherwise dispatch the whole round and then
evaluate approval points.  One fuel unit per round. -/
def executeAsyncLoop (options : ExecOptions) (now : Int) :
    Nat → Project → ExecutionState → World → RunOutcome
  | 0, project, st, w => { project := project, state := st, world := w, finished := false }
  | fuel + 1, project, st, w =>
    if st.completedTasks.length < project.plan.tasks.length then
      let ready := Engine.getReadyTasks project.plan st.completedTasks
      if ready.isEmpty then finishRun project st w now
      else
        let r := runRound options now ready project st w
        let a := checkApprovalPoints r.1 r.2.1 options r.2.2 now
        executeAsyncLoop options now fuel r.1 a.1 a.2
    else finishRun project st w now

/-- Function `executeAsync` of run.ts `AsyncEngine`: stamp the `EXECUTE` phase, run
the round loop with fresh execution state, and on loop exit stamp
`COMPLETED`. -/
def executeAsync (project : Project) (options : ExecOptions) (w : World) (now : Int)
    (fuel : Nat) : RunOutcome :=
  let p0 := { project with
    state := { project.state with currentPhase := "EXECUTE" }
    metadata := { project.metadata with lastModified := now } }
  executeAsyncLoop options now fuel p0 ⟨[], [], [], []⟩ w

end RunTs

theorem executeAsyncLoop_phase (options : ExecOptions) (now : Int) :
    ∀ fuel (project : Project) (st : RunTs.ExecutionState) (w : World),
      (RunTs.executeAsyncLoop options now fuel project st w).finished = true →
      (RunTs.executeAsyncLoop options now fuel project st w).project.state.currentPhase =
        "COMPLETED" := by
  intro fuel
  induction fuel with
  | zero =>
    intro project st w h
    simp [RunTs.executeAsyncLoop] at h
  | succ n ih =>
    intro project st w h
    rw [RunTs.executeAsyncLoop] at h ⊢
    by_cases hlt : st.completedTasks.length < project.plan.tasks.length
    · simp only [hlt, if_true] at h ⊢
      by_cases hrdy : (Engine.getReadyTasks project.plan st.completedTasks).isEmpty
      · simp [hrdy, RunTs.finishRun]
      · simp only [hrdy, Bool.false_eq_true, if_false] at h ⊢
        exact ih _ _ _ h
    · simp [hlt, RunTs.finishRun]

/-- C4 (amended): whenever the run.ts `executeAsync` loop exits — by
completing every task or by breaking on an empty ready set — the project
phase is set to `COMPLETED` unconditionally; no `FAILED` phase is ever
assigned, regardless of failed or blocked tasks. -/
theorem c4_phase_always_completed (project : Project) (options : ExecOptions)
    (w : World) (now : Int) (fuel : Nat)
    (h : (RunTs.executeAsync project options w now fuel).finished = true) :
    (RunTs.executeAsync project options w now fuel).project.state.currentPhase =
      "COMPLETED" :=
  executeAsyncLoop_phase options now fuel _ _ w h

/-- Plan with one labor task whose first side-effect attempt fails and whose
second (the loop re-dispatches it) succeeds. -/
def c4Plan : TaskPlan := mkPlan [{ mkTask "task_b" [] with skills := ["assembly"] }]

/-- Project wrapping `c4Plan`. -/
def c4Project : Project := mkProject c4Plan

/-- World whose perform oracle fails once, then succeeds. -/
def c4World : World := { decisions := [], performs := [false, true], calls := [], prompts := [] }

/-- The concrete C4 run. -/
def c4Run : RunTs.RunOutcome :=
  RunTs.executeAsync c4Project { approveAll := true, dryRun := false } c4World 0 3

/-- C4 counterexample to the claim as stated: this run exits the loop with a
nonempty blocked/failed set (`task_b` failed once and sits in
`blockedTasks`), yet the phase is set to `COMPLETED`, not `FAILED` — the
claim that `COMPLETED` is only assigned when the blocked/failed set is empty
is false of the code. -/
theorem c4_counterexample :
    c4Run.finished = true ∧
    c4Run.project.state.currentPhase = "COMPLETED" ∧
    c4Run.state.blockedTasks = ["task_b"] := by
  decide

/-- Witness instantiating `c4_phase_always_completed` on a finished run. -/
theorem c4_phase_always_completed_witness :
    (RunTs.executeAsync (mkProject (mkPlan [mkTask "task_a" []]))
        { approveAll := true, dryRun := true } ⟨[], [], [], []⟩ 0 2).finished = true ∧
    (RunTs.executeAsync (mkProject (mkPlan [mkTask "task_a" []]))
        { approveAll := true, dryRun := true } ⟨[], [], [], []⟩ 0 2).project.state.currentPhase =
      "COMPLETED" :=
  ⟨by decide,
    c4_phase_always_completed (mkProject (mkPlan [mkTask "task_a" []]))
      { approveAll := true, dryRun := true } ⟨[], [], [], []⟩ 0 2 (by decide)⟩

/-- Plan with a single critical-priority task, used for C5. -/
def c5Plan : TaskPlan := mkPlan [{ mkTask "task_t" [] with priority := "critical" }]

/-- Project wrapping `c5Plan`. -/
def c5Project : Project := mkProject c5Plan

/-- World whose human rejects the approval prompt three times. -/
def c5World : World :=
  { decisions := [false, false, false], performs := [], calls := [], prompts := [] }

/-- The concrete C5 run: interactive (approve-all off), three observed
rounds. -/
def c5Run : RunTs.RunOutcome :=
  RunTs.executeAsync c5Project { approveAll := false, dryRun := false } c5World 0 3

/-- C5: evaluation of run.ts at the failing input.  After the human rejects
the approval gate of `task_t`, the task sits in `blockedTasks` but readiness
is computed from `completedTasks` only, so the task is re-dispatched and its
gate re-prompted in every one of the three observed rounds (`prompts` lists
it three times), and the loop has not terminated — contradicting the claim
that a rejected task is never dispatched again nor re-prompted. -/
theorem c5_rejection_reprompts_eval :
    c5Run.world.prompts = ["task_t", "task_t", "task_t"] ∧
    c5Run.finished = false ∧
    c5Run.state.blockedTasks = ["task_t"] ∧
    c5Run.state.completedTasks = [] := by
  decide

/-- Plan with the three-task finish-to-start chain of the C7 scenario. -/
def c7Plan : TaskPlan :=
  mkPlan [mkTask "task_a" [], mkTask "task_b" ["task_a"], mkTask "task_c" ["task_b"]]

/-- Project wrapping `c7Plan`. -/
def c7Project : Project := mkProject c7Plan

/-- The concrete C7 run: approve-all, dry-run, enough fuel for the three
rounds plus the terminating check. -/
def c7Run : RunTs.RunOutcome :=
  RunTs.executeAsync c7Project { approveAll := true, dryRun := true } ⟨[], [], [], []⟩ 0 4

/-- C7 counterexample to the claim as stated: the log of the A→B→C dry-run
scenario contains no `started` entries at all (run.ts never logs `started`),
not the three the claim requires. -/
theorem c7_counterexample :
    (c7Run.state.executionLog.filter (fun e => e.action == "started")).length = 0 ∧
    (0 : Nat) ≠ 3 := by
  decide

/-- C7 (amended): the A→B→C dry-run approve-all scenario reaches the
terminal result with `currentPhase = COMPLETED`, and its execution log is
exactly three `completed` entries in order A, B, C, with no `started`
entries (each dry-run dispatch logs only `completed`). -/
theorem c7_dry_run_chain_scenario :
    c7Run.finished = true ∧
    c7Run.project.state.currentPhase = "COMPLETED" ∧
    c7Run.state.executionLog.map (fun e => (e.action, e.taskId)) =
      [("completed", some "task_a"), ("completed", some "task_b"),
        ("completed", some "task_c")] ∧
    (c7Run.state.executionLog.filter (fun e => e.action == "started")).length = 0 := by
  decide

namespace PlanTs

/-- Result of a run of `executeAsync` of plan.ts.  `aborted` is the
exception path: `executeTaskAsync` rethrows task failures and the
`Promise.all` of the round propagates the rejection out of `executeAsync`,
so neither the loop nor the epilogue runs again.  `fuelOut` marks fuel
exhaustion of the model. -/
inductive PlanRunResult where
  | completed (project : Project) (world : World)
  | haltedCycle (project : Project) (world : World)
  | aborted (project : Project) (world : World)
  | fuelOut (project : Project) (world : World)
deriving DecidableEq, Repr

/-- The project carried by a `PlanRunResult`. -/
def PlanRunResult.project : PlanRunResult → Project
  | .completed p _ => p
  | .haltedCycle p _ => p
  | .aborted p _ => p
  | .fuelOut p _ => p

/-- The world carried by a `PlanRunResult`. -/
def PlanRunResult.world : PlanRunResult → World
  | .completed _ w => w
  | .haltedCycle _ w => w
  | .aborted _ w => w
  | .fuelOut _ w => w

/-- Whether the run ended on the exception path. -/
def PlanRunResult.isAborted : PlanRunResult → Bool
  | .aborted _ _ => true
  | _ => false

/-- Append one entry to `project.state.executionLog`. -/
def pushLog (project : Project) (entry : LogEntry) : Project :=
  { project with state :=
      { project.state with executionLog := project.state.executionLog ++ [entry] } }

/-- Function `executeTaskAsync` of plan.ts: in dry-run, return before any mutation or
logging; otherwise set the task in progress, log `started` and run
`Engine.executeTask`.  On success set the status to `completed`, push the id
onto `project.state.completedTasks` and log `completed`; on failure set the
status to `failed`, log `failed`, and rethrow — the Bool result is `false`
exactly when the source rethrows. -/
def executeTaskAsync (task : Task) (project : Project) (options : ExecOptions)
    (w : World) (now : Int) : Project × World × Bool :=
  if options.dryRun then (project, w, true)
  else
    let p1 := pushLog (setTaskStatus project task.id .in_progress)
      { timestamp := now, taskId := task.id, action := "started" }
    let r := Engine.executeTask task options w
    if r.1 then
      let p2 := setTaskStatus p1 task.id .completed
      let p3 := { p2 with state :=
        { p2.state with completedTasks := p2.state.completedTasks ++ [task.id] } }
      (pushLog p3 { timestamp := now, taskId := task.id, action := "completed" }, r.2, true)
    else
      (pushLog (setTaskStatus p1 task.id .failed)
        { timestamp := now, taskId := task.id, action := "failed" }, r.2, false)

/-- One batch round of plan.ts `executeAsync`: every ready task is started
under `Promise.all`, so each of them runs to settlement even when another
one rejects; the Bool is `true` when no task of the round rejected. -/
def planRound (options : ExecOptions) (now : Int) :
    List Task → Project → World → Project × World × Bool
  | [], project, w => (project, w, true)
  | task :: rest, project, w =>
    let r := executeTaskAsync task project options w now
    let rr := planRound options now rest r.1 r.2.1
    (rr.1, rr.2.1, r.2.2 && rr.2.2)

/-- The `while` loop of plan.ts `executeAsync` in batch mode: return early
with the circular-dependency report when the ready set is empty, run a
round, abort when the round rejected (the `Promise.all` rejection
propagates before `executedTasks` is extended), otherwise add the round ids
to `executedTasks` and continue; on normal loop exit stamp the `COMPLETED`
phase and `lastModified`. -/
def executeAsyncLoop (options : ExecOptions) (now : Int) :
    Nat → Project → List String → World → PlanRunResult
  | 0, project, _, w => .fuelOut project w
  | fuel + 1, project, executedTasks, w =>
    if executedTasks.length < project.plan.tasks.length then
      let ready := Engine.getReadyTasks project.plan executedTasks
      if ready.isEmpty then .haltedCycle project w
      else
        let r := planRound options now ready project w
        if r.2.2 then
          executeAsyncLoop options now fuel r.1
            (ready.foldl (fun e t => addId e t.id) executedTasks) r.2.1
        else .aborted r.1 r.2.1
    else
      .completed { project with
        state := { project.state with currentPhase := "COMPLETED" }
        metadata := { project.metadata with lastModified := now } } w

/-- Function `executeAsync` of plan.ts `AsyncEngine` in batch mode (the
interactive-selection and modify-mode prompts are interactive mutations the
model omits, matching runs with `interactive = false`, `modify = false`):
stamp the `EXECUTE` phase, then run the loop with an empty executed set. -/
def executeAsync (project : Project) (options : ExecOptions) (w : World) (now : Int)
    (fuel : Nat) : PlanRunResult :=
  let p0 := { project with
    state := { project.state with currentPhase := "EXECUTE" }
    metadata := { project.metadata with lastModified := now } }
  executeAsyncLoop options now fuel p0 [] w

end PlanTs

/-- The status of the task with the given id, if any. -/
def taskStatus (project : Project) (id : String) : Option TaskStatus :=
  (project.plan.tasks.find? (fun t => t.id == id)).map (fun t => t.status)

/-- Plan for C3: the labor task `task_a` will fail; `task_b` depends only on
`task_c` and is independent of `task_a`. -/
def c3Plan : TaskPlan :=
  mkPlan [{ mkTask "task_a" [] with skills := ["assembly"] },
    mkTask "task_c" [], mkTask "task_b" ["task_c"]]

/-- Project wrapping `c3Plan`. -/
def c3Project : Project := mkProject c3Plan

/-- World whose single perform outcome rejects (the side effect of `task_a`
fails). -/
def c3World : World := { decisions := [], performs := [false], calls := [], prompts := [] }

/-- The concrete C3 run of the plan.ts engine. -/
def c3Run : PlanTs.PlanRunResult :=
  PlanTs.executeAsync c3Project { approveAll := true, dryRun := false } c3World 0 4

/-- C3: evaluation of plan.ts at the failing input.  `task_a` fails in round
one; `executeTaskAsync` rethrows after recording the failure and the
`Promise.all` rejection propagates out of `executeAsync`, aborting the whole
run — so `task_b`, which does not depend on `task_a` at all, never runs and
stays `pending` instead of reaching `completed` as the claim requires.
(`task_c`, dispatched in the same already-started round, still completes.) -/
theorem c3_failure_aborts_run_eval :
    c3Run.isAborted = true ∧
    taskStatus c3Run.project "task_a" = some TaskStatus.failed ∧
    taskStatus c3Run.project "task_c" = some TaskStatus.completed ∧
    taskStatus c3Run.project "task_b" = some TaskStatus.pending := by
  decide

theorem planRound_dry {options : ExecOptions} (now : Int) (hdry : options.dryRun = true) :
    ∀ (ts : List Task) (p : Project) (w : World),
      PlanTs.planRound options now ts p w = (p, w, true) := by
  intro ts
  induction ts with
  | nil => intro p w; rfl
  | cons t rest ih =>
    intro p w
    simp [PlanTs.planRound, PlanTs.executeTaskAsync, hdry, ih]

theorem planLoop_dry_frame {options : ExecOptions} (now : Int) (hdry : options.dryRun = true) :
    ∀ fuel (p : Project) (ex : List String) (w : World),
      (PlanTs.executeAsyncLoop options now fuel p ex w).project.plan = p.plan ∧
      (PlanTs.executeAsyncLoop options now fuel p ex w).project.info = p.info ∧
      (PlanTs.executeAsyncLoop options now fuel p ex w).project.policy = p.policy ∧
      (PlanTs.executeAsyncLoop options now fuel p ex w).project.spec = p.spec ∧
      (PlanTs.executeAsyncLoop options now fuel p ex w).world = w := by
  intro fuel
  induction fuel with
  | zero => intro p ex w; exact ⟨rfl, rfl, rfl, rfl, rfl⟩
  | succ n ih =>
    intro p ex w
    rw [PlanTs.executeAsyncLoop]
    by_cases hlt : ex.length < p.plan.tasks.length
    · simp only [hlt, if_true]
      by_cases hrdy : (Engine.getReadyTasks p.plan ex).isEmpty
      · simp [hrdy, PlanTs.PlanRunResult.project, PlanTs.PlanRunResult.world]
      · simp only [hrdy, Bool.false_eq_true, if_false, planRound_dry now hdry]
        exact ih p _ w
    · simp [hlt, PlanTs.PlanRunResult.project, PlanTs.PlanRunResult.world]

/-- C6 (amended): with `dryRun = true` the engines never invoke the
Side-Effect Capability — `Engine.executeTask` returns leaving the world
untouched, and a whole plan.ts `executeAsync` run returns the world (and so
the recorded capability-call trace) unchanged — and the resulting project
equals the pre-run project on every field outside `state`,
`plan.tasks[].status` and `metadata.lastModified`: the plan (task statuses
included), the project info, the policy and the spec are all unchanged.
The `metadata.lastModified` exception is forced by the counterexample
below. -/
theorem c6_dry_run_frame (project : Project) (options : ExecOptions) (w : World)
    (now : Int) (fuel : Nat) (task : Task) (hdry : options.dryRun = true) :
    Engine.executeTask task options w = (true, w) ∧
    (PlanTs.executeAsync project options w now fuel).project.plan = project.plan ∧
    (PlanTs.executeAsync project options w now fuel).project.info = project.info ∧
    (PlanTs.executeAsync project options w now fuel).project.policy = project.policy ∧
    (PlanTs.executeAsync project options w now fuel).project.spec = project.spec ∧
    (PlanTs.executeAsync project options w now fuel).world = w := by
  obtain ⟨h1, h2, h3, h4, h5⟩ := planLoop_dry_frame now hdry fuel
    { project with
      state := { project.state with currentPhase := "EXECUTE" }
      metadata := { project.metadata with lastModified := now } } [] w
  exact ⟨by simp [Engine.executeTask, hdry],
    by simpa [PlanTs.executeAsync] using h1,
    by simpa [PlanTs.executeAsync] using h2,
    by simpa [PlanTs.executeAsync] using h3,
    by simpa [PlanTs.executeAsync] using h4,
    by simpa [PlanTs.executeAsync] using h5⟩

/-- Project for the C6 counterexample, with `lastModified = 0` before the
run. -/
def c6Project : Project := mkProject (mkPlan [mkTask "task_a" []])

/-- The concrete C6 dry-run at wall-clock time 77. -/
def c6Run : PlanTs.PlanRunResult :=
  PlanTs.executeAsync c6Project { approveAll := true, dryRun := true } ⟨[], [], [], []⟩ 77 3

/-- C6 counterexample to the claim as stated: the dry-run rewrites
`metadata.lastModified` (0 before, 77 after), a field outside `state` and
`plan.tasks[].status`, so the resulting project is not equal to the pre-run
project on all such fields. -/
theorem c6_counterexample :
    c6Run.project.metadata.lastModified = 77 ∧
    c6Project.metadata.lastModified = 0 ∧ (77 : Int) ≠ 0 := by
  decide

/-- Witness instantiating `c6_dry_run_frame` on a concrete dry run. -/
theorem c6_dry_run_frame_witness :
    ({ approveAll := true, dryRun := true } : ExecOptions).dryRun = true ∧
    (Engine.executeTask (mkTask "task_a" []) { approveAll := true, dryRun := true }
        ⟨[], [], [], []⟩ = (true, ⟨[], [], [], []⟩) ∧
      (PlanTs.executeAsync c6Project { approveAll := true, dryRun := true }
          ⟨[], [], [], []⟩ 77 3).project.plan = c6Project.plan ∧
      (PlanTs.executeAsync c6Project { approveAll := true, dryRun := true }
          ⟨[], [], [], []⟩ 77 3).project.info = c6Project.info ∧
      (PlanTs.executeAsync c6Project { approveAll := true, dryRun := true }
          ⟨[], [], [], []⟩ 77 3).project.policy = c6Project.policy ∧
      (PlanTs.executeAsync c6Project { approveAll := true, dryRun := true }
          ⟨[], [], [], []⟩ 77 3).project.spec = c6Project.spec ∧
      (PlanTs.executeAsync c6Project { approveAll := true, dryRun := true }
          ⟨[], [], [], []⟩ 77 3).world = ⟨[], [], [], []⟩) :=
  ⟨rfl, c6_dry_run_frame c6Project { approveAll := true, dryRun := true }
    ⟨[], [], [], []⟩ 77 3 (mkTask "task_a" []) rfl⟩

namespace Timeline

/-- Exact integer model of `Math.ceil(a / b)` for positive `b`:
`-((-a) / b)` with the floor-for-positive-divisor division of `Int`. -/
def ceilDiv (a b : Int) : Int := -((-a) / b)

/-- Function `daysToComplete` of the run.ts timeline check: plan hours divided by the
hardcoded 8 hours per day, rounded up (`estimatedDuration` is what the spec
calls `remainingEstimatedHours`). -/
def daysToComplete (estimatedDuration : Int) : Int := ceilDiv estimatedDuration 8

/-- Function `availableDays` of the run.ts timeline check: milliseconds between now
and the target end date, divided by `24*60*60*1000`, rounded up. -/
def availableDays (targetEndDate now : Int) : Int :=
  ceilDiv (targetEndDate - now) 86400000

/-- The run.ts timeline gate fails exactly when `daysToComplete` exceeds
`availableDays`. -/
def timelineExceeded (estimatedDuration targetEndDate now : Int) : Bool :=
  decide (availableDays targetEndDate now < daysToComplete estimatedDuration)

end Timeline

/-- C8: the timeline gate computes both quantities as exact integer
ceilings — `daysToComplete` is the unique integer `r` with
`8*(r-1) < hours ≤ 8*r`, `availableDays` the unique integer `a` with
`86400000*(a-1) < targetEndDate - now ≤ 86400000*a` — and reports failure
exactly when the former exceeds the latter. -/
theorem c8_timeline_gate_ceil (d t n : Int) :
    (8 * (Timeline.daysToComplete d - 1) < d ∧ d ≤ 8 * Timeline.daysToComplete d) ∧
    (86400000 * (Timeline.availableDays t n - 1) < t - n ∧
      t - n ≤ 86400000 * Timeline.availableDays t n) ∧
    (Timeline.timelineExceeded d t n = true ↔
      Timeline.availableDays t n < Timeline.daysToComplete d) := by
  refine ⟨?_, ?_, ?_⟩
  · unfold Timeline.daysToComplete Timeline.ceilDiv
    omega
  · unfold Timeline.availableDays Timeline.ceilDiv
    omega
  · simp [Timeline.timelineExceeded]

/-- Substring test over character lists, modelling the JavaScript
`String.prototype.includes`. -/
def charsIncludes (sub : List Char) : List Char → Bool
  | [] => sub.isEmpty
  | c :: rest => sub.isPrefixOf (c :: rest) || charsIncludes sub rest

/-- Substring test on strings, the JavaScript includes. -/
def strIncludes (s sub : String) : Bool := charsIncludes sub.data s.data

namespace Estimator

/-- Skill-level inference of `estimateTaskCost`: look the skill up in the
project requirements, else infer the requirement level (1–4) from the skill
name, defaulting to intermediate. -/
def inferLevel (requirements : List Requirement) (skillName : String) : Nat :=
  match requirements.find? (fun req => req.name == skillName) with
  | some req => req.level
  | none =>
    if strIncludes skillName "basic" then 1
    else if strIncludes skillName "intermediate" || strIncludes skillName "assembly" then 2
    else if strIncludes skillName "advanced" || strIncludes skillName "technical" then 3
    else if strIncludes skillName "expert" || strIncludes skillName "management" then 4
    else 2

/-- Function `getSkillTierKey` composed with the tier lookup. -/
def getSkillTier (skillTiers : SkillTierPricing) (level : Nat) : Money :=
  if level == 1 then skillTiers.basic
  else if level == 2 then skillTiers.intermediate
  else if level == 3 then skillTiers.advanced
  else if level == 4 then skillTiers.expert
  else skillTiers.intermediate

/-- Function `estimateTaskCost`: price the task at the tier of the highest required
skill level times its estimated hours.  The source computes
`Math.round(tier.amount / 100 * hours * 100)`, which in exact arithmetic is
`tier.amount * hours`. -/
def estimateTaskCost (task : Task) (skillTiers : SkillTierPricing)
    (projectRequirements : List Requirement) : Money :=
  let highestLevel := (task.skills.map (inferLevel projectRequirements)).foldl
    (fun highest current => if current > highest then current else highest) 1
  let skillTier := getSkillTier skillTiers highestLevel
  { amount := skillTier.amount * (task.estimatedHours : Int)
    currency := skillTier.currency }

/-- Function `Estimator.estimate` of `src/agents/estimator.ts`: re-cost every task,
total the per-task amounts with a fold, and return the plan with the new
task list and total, in the budget currency. -/
def estimate (taskPlan : TaskPlan) (project : Project) : TaskPlan :=
  let skillTiers := project.state.skillTiers
  let estimatedTasks := taskPlan.tasks.map (fun task =>
    { task with estimatedCost := estimateTaskCost task skillTiers project.spec })
  let totalCost := estimatedTasks.foldl (fun sum task => sum + task.estimatedCost.amount) 0
  { taskPlan with
    tasks := estimatedTasks
    estimatedCost := { amount := totalCost, currency := project.info.budget.currency } }

end Estimator

/-- Erase the estimated cost of a task; two tasks agree on every other field
exactly when their `wipeCost` images are equal. -/
def Task.wipeCost (t : Task) : Task := { t with estimatedCost := { amount := 0, currency := "" } }

theorem foldl_add_amount (l : List Task) (s : Int) :
    l.foldl (fun sum task => sum + task.estimatedCost.amount) s =
      s + (l.map (fun t => t.estimatedCost.amount)).sum := by
  induction l generalizing s with
  | nil => simp
  | cons t rest ih => simp [ih, add_assoc]

/-- C9: `Estimator.estimate` keeps the tasks in their original order with
every field except `estimatedCost` unchanged, and the total
`estimatedCost.amount` of the returned plan is the sum of the per-task
amounts of the returned tasks. -/
theorem c9_estimator_structure (taskPlan : TaskPlan) (project : Project) :
    (Estimator.estimate taskPlan project).tasks.map Task.wipeCost =
      taskPlan.tasks.map Task.wipeCost ∧
    (Estimator.estimate taskPlan project).estimatedCost.amount =
      ((Estimator.estimate taskPlan project).tasks.map
        (fun t => t.estimatedCost.amount)).sum := by
  constructor
  · simp only [Estimator.estimate, List.map_map]
    apply List.map_congr_left
    intro t _
    cases t
    rfl
  · simp only [Estimator.estimate]
    rw [foldl_add_amount]
    simp

end Build
